import Mathlib

/-!
# Formal model of the `btc-staking-ts` transaction/script construction library

Shallow embedding of the library's core (src/index.ts, src/utils/stakingScript.ts,
src/utils/fee.ts) together with the behaviour of the `bitcoinjs-lib` primitives the
code calls (`script.compile`, `script.decompile`, `script.number.encode/decode`,
`Buffer.compare`, `Array.prototype.sort`, and the satoshi-value check performed by
`Psbt.addOutput`).

Conventions of the embedding:
* A JS `Buffer` is a `List Nat` of byte values (each `< 256` in every reachable state).
* JS numbers are modeled as `Int` wherever the code only ever computes integers;
  the slashing-rate arithmetic (`value * slashingRate` etc.) is modeled over exact
  rationals `ℚ` (the concrete inputs used in theorems below are dyadic rationals on
  which IEEE-754 double arithmetic is exact, so the model agrees with JS there).
* A `throw` is an `Except.error` value.  Structured validation failures get one
  constructor each; non-structured runtime exceptions (reading a property of
  `undefined` after an out-of-bounds array access, `script.number.decode` range
  errors, and the typeforce `Satoshi` rejection inside `Psbt.addOutput`, which
  requires an integer value in `[0, 21 * 10^14]`) get their own distinguished
  constructors.
* JS in-place array sorts (`Array.prototype.sort` is stable) are modeled by the
  stable `List.insertionSort`; the post-call contents of a mutated caller array are
  exposed by explicit `...FinalState` functions.
* Bitcoin addresses are kept opaque (decoding a bech32/base58 string is performed by
  the external address layer); an address is a `Nat` identifier, and a constructed
  taproot output is represented by its internal key and script tree.
-/

/-- Decidable equality for `Except` results (used to evaluate the models on
concrete inputs). -/
instance {ε α : Type} [DecidableEq ε] [DecidableEq α] : DecidableEq (Except ε α) := fun x y =>
  match x, y with
  | .ok a, .ok b =>
    match decEq a b with
    | isTrue h => isTrue (h ▸ rfl)
    | isFalse h => isFalse (by intro hh; injection hh; exact h (by assumption))
  | .error a, .error b =>
    match decEq a b with
    | isTrue h => isTrue (h ▸ rfl)
    | isFalse h => isFalse (by intro hh; injection hh; exact h (by assumption))
  | .ok _, .error _ => isFalse (by intro hh; exact Except.noConfusion hh)
  | .error _, .ok _ => isFalse (by intro hh; exact Except.noConfusion hh)

/-! ## Bitcoin script opcodes (values from bitcoinjs-lib) -/

def OP_PUSHDATA4 : Nat := 78
def OP_1NEGATE : Nat := 79
def OP_RESERVED : Nat := 80
def OP_VERIFY : Nat := 105
def OP_RETURN : Nat := 106
def OP_GREATERTHANOREQUAL : Nat := 162
def OP_CHECKSIG : Nat := 172
def OP_CHECKSIGVERIFY : Nat := 173
def OP_CHECKSEQUENCEVERIFY : Nat := 178
def OP_CHECKSIGADD : Nat := 186

/-! ## bitcoinjs-lib `script.number` (CScriptNum encoding) -/

/-- `scriptNumSize` from bitcoinjs-lib: the byte size of the minimal encoding of a
magnitude. -/
def scriptNumSize (v : Nat) : Nat :=
  if v > 2147483647 then 5
  else if v > 8388607 then 4
  else if v > 32767 then 3
  else if v > 127 then 2
  else if v > 0 then 1
  else 0

/-- Little-endian byte expansion of a magnitude into a fixed number of bytes. -/
def natToBytesLE (v : Nat) : Nat → List Nat
  | 0 => []
  | k + 1 => v % 256 :: natToBytesLE (v / 256) k

/-- `script.number.encode`: minimal little-endian CScriptNum encoding; for negative
numbers the sign bit `0x80` is set on the final byte (which is `< 0x80` by choice of
`scriptNumSize`). -/
def scriptNumEncode (n : Int) : List Nat :=
  let v := n.natAbs
  let buf := natToBytesLE v (scriptNumSize v)
  if n < 0 then buf.dropLast ++ [buf.getLastD 0 + 128] else buf

inductive ScriptNumErr where
  | overflow
  | nonMinimal
  deriving DecidableEq, Repr

/-- Little-endian byte-list to magnitude. -/
def bytesToNatLE : List Nat → Nat
  | [] => 0
  | b :: r => b + 256 * bytesToNatLE r

/-- `script.number.decode(buffer)` with the default `maxLength = 4` and
`minimal = true` (as called by `withdrawalTransaction`).  For a byte `b < 256`,
`b & 0x7f = b % 128` and `b & 0x80 ≠ 0 ↔ 128 ≤ b % 256`. -/
def scriptNumDecode (buffer : List Nat) : Except ScriptNumErr Int :=
  if buffer.length = 0 then .ok 0
  else if buffer.length > 4 then .error .overflow
  else
    let last := buffer.getLastD 0
    if last % 128 = 0 ∧ (buffer.length ≤ 1 ∨ (buffer.dropLast.getLastD 0) % 256 < 128) then
      .error .nonMinimal
    else
      let result : Int := (bytesToNatLE buffer : Int)
      if 128 ≤ last % 256 then
        .ok (-(result - 128 * (256 : Int) ^ (buffer.length - 1)))
      else
        .ok result

/-! ## bitcoinjs-lib `script.compile` / `script.decompile` -/

/-- A decompiled script chunk: an opcode (JS `number`) or a data push (JS `Buffer`). -/
inductive Chunk where
  | op (o : Nat)
  | buf (b : List Nat)
  deriving DecidableEq, Repr

/-- bitcoinjs-lib `asMinimalOP`: canonicalises tiny pushes into opcodes. -/
def asMinimalOP (data : List Nat) : Option Nat :=
  match data with
  | [] => some 0
  | [b] =>
    if 1 ≤ b ∧ b ≤ 16 then some (OP_RESERVED + b)
    else if b = 129 then some OP_1NEGATE
    else none
  | _ => none

/-- The chunk that `decompile` emits for a data push. -/
def chunkOfData (data : List Nat) : Chunk :=
  match asMinimalOP data with
  | some o => Chunk.op o
  | none => Chunk.buf data

/-- Push-header bytes for a data push of the given length (OP_PUSHDATA forms). -/
def pushHeader (n : Nat) : List Nat :=
  if n < 76 then [n]
  else if n ≤ 255 then [76, n]
  else if n ≤ 65535 then [77, n % 256, n / 256]
  else [78, n % 256, n / 256 % 256, n / 65536 % 256, n / 16777216 % 256]

/-- `script.compile` of one chunk. -/
def compileChunk : Chunk → List Nat
  | .op o => [o]
  | .buf b =>
    match asMinimalOP b with
    | some o => [o]
    | none => pushHeader b.length ++ b

/-- `script.compile`: concatenation of the compiled chunks. -/
def compile (cs : List Chunk) : List Nat :=
  (cs.map compileChunk).flatten

/-- The parsing loop of `script.decompile`, structurally recursive on a fuel
bound; every loop iteration consumes at least one byte, so the fuel
`bytes.length` supplied by `decompile` is always sufficient. -/
def decompileGo : Nat → List Nat → Option (List Chunk)
  | _, [] => some []
  | 0, _ :: _ => none
  | fuel + 1, op :: rest =>
    if 1 ≤ op ∧ op ≤ 75 then
      if op ≤ rest.length then
        (decompileGo fuel (rest.drop op)).map
          (fun cs => chunkOfData (rest.take op) :: cs)
      else none
    else if op = 76 then
      if rest.length < 1 then none
      else
        let n := rest.headD 0
        let r := rest.tail
        if n ≤ r.length then
          (decompileGo fuel (r.drop n)).map (fun cs => chunkOfData (r.take n) :: cs)
        else none
    else if op = 77 then
      if rest.length < 2 then none
      else
        let n := rest.headD 0 + 256 * rest.tail.headD 0
        let r := rest.tail.tail
        if n ≤ r.length then
          (decompileGo fuel (r.drop n)).map (fun cs => chunkOfData (r.take n) :: cs)
        else none
    else if op = 78 then
      if rest.length < 4 then none
      else
        let n := rest.headD 0 + 256 * rest.tail.headD 0 +
          65536 * rest.tail.tail.headD 0 + 16777216 * rest.tail.tail.tail.headD 0
        let r := rest.drop 4
        if n ≤ r.length then
          (decompileGo fuel (r.drop n)).map (fun cs => chunkOfData (r.take n) :: cs)
        else none
    else
      (decompileGo fuel rest).map (fun cs => Chunk.op op :: cs)

/-- `script.decompile`: parses a byte sequence back into chunks, returning `none`
exactly when a push runs past the end of the buffer (the JS function returns
`null` then).  Opcodes `1..78` introduce pushes; everything else is an opcode
chunk. -/
def decompile (bytes : List Nat) : Option (List Chunk) :=
  decompileGo bytes.length bytes

/-! ## `Buffer.compare` and the JS stable sort -/

/-- `Buffer.compare`: lexicographic byte comparison; a strict prefix is smaller. -/
def bufferCompare : List Nat → List Nat → Ordering
  | [], [] => .eq
  | [], _ :: _ => .lt
  | _ :: _, [] => .gt
  | a :: as, b :: bs =>
    if a < b then .lt else if b < a then .gt else bufferCompare as bs

/-- The total preorder realised by sorting with the comparator `Buffer.compare`
ascending. -/
def bufferLe (a b : List Nat) : Prop := bufferCompare a b ≠ Ordering.gt

instance : DecidableRel bufferLe := fun a b =>
  inferInstanceAs (Decidable (bufferCompare a b ≠ Ordering.gt))

instance : IsTotal (List Nat) bufferLe where
  total := by
    intro a
    induction a with
    | nil => intro b; left; cases b <;> simp [bufferLe, bufferCompare]
    | cons x xs ih =>
      intro b
      cases b with
      | nil => right; cases xs <;> simp [bufferLe, bufferCompare]
      | cons y ys =>
        rcases Nat.lt_trichotomy x y with h | h | h
        · left; simp [bufferLe, bufferCompare, h]
        · subst h
          rcases ih ys with h' | h' <;> [left; right] <;>
            simpa [bufferLe, bufferCompare] using h'
        · right; simp [bufferLe, bufferCompare, h, Nat.lt_asymm h]

instance : IsTrans (List Nat) bufferLe where
  trans := by
    intro a
    induction a with
    | nil => intro b c _ _; cases c <;> simp [bufferLe, bufferCompare]
    | cons x xs ih =>
      intro b c h1 h2
      cases b with
      | nil => exact absurd rfl h1
      | cons y ys =>
        cases c with
        | nil => exact absurd rfl h2
        | cons z zs =>
          simp only [bufferLe, bufferCompare] at h1 h2 ⊢
          split_ifs at h1 h2 ⊢ with hxy hyx hyz hzy hxz hzx
          all_goals try exact h1
          all_goals try exact h2
          all_goals try simp_all
          all_goals try omega
          exact ih ys zs h1 h2

/-- `[...arr].sort(Buffer.compare)`: JS `Array.prototype.sort` is a stable sort,
modeled by the stable `List.insertionSort`. -/
def jsSortBuffersAsc (l : List (List Nat)) : List (List Nat) :=
  List.insertionSort bufferLe l

/-! ## src/utils/fee.ts -/

def INPUT_SIZE_FOR_FEE_CAL : Int := 180
def OUTPUT_SIZE_FOR_FEE_CAL : Int := 34
def TX_BUFFER_SIZE_FOR_FEE_CAL : Int := 10
def ESTIMATED_OP_RETURN_SIZE : Int := 40

/-- `getEstimatedFee` from src/utils/fee.ts. -/
def getEstimatedFee (feeRate numInputs numOutputs : Int) : Int :=
  (numInputs * INPUT_SIZE_FOR_FEE_CAL +
    numOutputs * OUTPUT_SIZE_FOR_FEE_CAL +
    TX_BUFFER_SIZE_FOR_FEE_CAL + numInputs + ESTIMATED_OP_RETURN_SIZE) * feeRate

/-- UTXO record from src/types/UTXO.ts (txid and scriptPubKey are opaque here). -/
structure UTXO where
  txid : Nat
  vout : Int
  value : Int
  scriptPubKey : List Nat
  deriving DecidableEq, Repr

/-- `inputValueSum` from src/utils/fee.ts (`reduce` with accumulator `0`). -/
def inputValueSum (inputUTXOs : List UTXO) : Int :=
  inputUTXOs.foldl (fun acc utxo => acc + utxo.value) 0

/-- The preorder realised by the comparator `(a, b) => b.value - a.value`
(descending by value). -/
def utxoValueGe (a b : UTXO) : Prop := b.value ≤ a.value

instance : DecidableRel utxoValueGe := fun a b =>
  inferInstanceAs (Decidable (b.value ≤ a.value))

instance : IsTotal UTXO utxoValueGe := ⟨fun a b => le_total b.value a.value⟩

instance : IsTrans UTXO utxoValueGe := ⟨fun _ _ _ h1 h2 => le_trans h2 h1⟩

/-- `availableUTXOs.sort((a, b) => b.value - a.value)`: stable descending sort. -/
def sortUTXOsDesc (l : List UTXO) : List UTXO :=
  List.insertionSort utxoValueGe l

/-- Failures thrown by `getStakingTxInputUTXOsAndFees`. -/
inductive FeeErr where
  | insufficientFunds
  | unableToCalculateFee
  | insufficientFundsForFee
  deriving DecidableEq, Repr

/-- The `for (const utxo of availableUTXOs) { ... if (...) break }` loop of
`getStakingTxInputUTXOsAndFees`, with the selected list, accumulated value, and
last computed fee estimate as explicit state. -/
def getStakingTxGo (stakingAmount feeRate numOfOutputs : Int) :
    List UTXO → List UTXO → Int → Option Int → List UTXO × Int × Option Int
  | [], sel, acc, fee => (sel, acc, fee)
  | utxo :: rest, sel, acc, _ =>
    let sel' := sel ++ [utxo]
    let acc' := acc + utxo.value
    let fee' := getEstimatedFee feeRate (sel'.length : Int) numOfOutputs
    if stakingAmount + fee' ≤ acc' then (sel', acc', some fee')
    else getStakingTxGo stakingAmount feeRate numOfOutputs rest sel' acc' (some fee')

/-- `getStakingTxInputUTXOsAndFees` from src/utils/fee.ts.  The in-place sort is
applied before iterating; `if (!estimatedFee)` is truthy-falsy on JS numbers, i.e.
it fires when the loop never ran (`undefined`) or the estimate is `0`. -/
def getStakingTxInputUTXOsAndFees (availableUTXOs : List UTXO)
    (stakingAmount feeRate numOfOutputs : Int) : Except FeeErr (List UTXO × Int) :=
  if availableUTXOs.length = 0 then .error .insufficientFunds
  else
    let sorted := sortUTXOsDesc availableUTXOs
    let res := getStakingTxGo stakingAmount feeRate numOfOutputs sorted [] 0 none
    match res.2.2 with
    | none => .error .unableToCalculateFee
    | some fee =>
      if fee = 0 then .error .unableToCalculateFee
      else if res.2.1 < stakingAmount + fee then .error .insufficientFundsForFee
      else .ok (res.1, fee)

/-- Contents of the caller's `availableUTXOs` array after a call to
`getStakingTxInputUTXOsAndFees`: the function sorts the array **in place**
(descending by value) unless it threw before reaching the sort (empty array). -/
def getStakingTxInputUTXOsAndFeesFinalState (availableUTXOs : List UTXO) : List UTXO :=
  if availableUTXOs.length = 0 then availableUTXOs else sortUTXOsDesc availableUTXOs

/-! ## src/utils/stakingScript.ts -/

/-- Failures thrown while building the staking scripts.  The last two model
non-structured JS runtime exceptions (`Buffer.writeUInt16BE` range error for an
out-of-range value, and `Buffer.concat` on the `undefined` obtained from indexing
an empty key list). -/
inductive ScriptDataErr where
  | noKeysProvided
  | thresholdExceedsKeys
  | duplicateKeys
  | jsRangeWriteUInt16
  | jsUndefinedAccess
  deriving DecidableEq, Repr

/-- The five compiled scripts (src/types/StakingScripts.ts). -/
structure StakingScripts where
  timelockScript : List Nat
  unbondingScript : List Nat
  slashingScript : List Nat
  unbondingTimelockScript : List Nat
  dataEmbedScript : List Nat
  deriving DecidableEq, Repr

/-- `StakingScriptData` constructor data (the TS constructor copies the arguments
into fields unvalidated). -/
structure StakingScriptData where
  stakerKey : List Nat
  finalityProviderKeys : List (List Nat)
  covenantKeys : List (List Nat)
  covenantThreshold : Int
  stakingTimeLock : Int
  unbondingTimeLock : Int
  magicBytes : List Nat
  deriving DecidableEq, Repr

/-- `StakingScriptData.validate`. -/
def StakingScriptData.validate (d : StakingScriptData) : Bool :=
  if d.stakerKey.length ≠ 32 then false
  else if d.finalityProviderKeys.any (fun k => k.length ≠ 32) then false
  else if d.covenantKeys.any (fun k => k.length ≠ 32) then false
  else if d.stakingTimeLock > 65535 then false
  else true

/-- `buildTimelockScript(timelock)`:
`<stakerKey> OP_CHECKSIGVERIFY <timelock> OP_CHECKSEQUENCEVERIFY`. -/
def buildTimelockScript (stakerKey : List Nat) (timelock : Int) : List Nat :=
  compile [Chunk.buf stakerKey, Chunk.op OP_CHECKSIGVERIFY,
    Chunk.buf (scriptNumEncode timelock), Chunk.op OP_CHECKSEQUENCEVERIFY]

def StakingScriptData.buildStakingTimelockScript (d : StakingScriptData) : List Nat :=
  buildTimelockScript d.stakerKey d.stakingTimeLock

def StakingScriptData.buildUnbondingTimelockScript (d : StakingScriptData) : List Nat :=
  buildTimelockScript d.stakerKey d.unbondingTimeLock

/-- `buildSingleKeyScript(pk, withVerify)`. -/
def buildSingleKeyScript (pk : List Nat) (withVerify : Bool) : List Nat :=
  compile [Chunk.buf pk, Chunk.op (if withVerify then OP_CHECKSIGVERIFY else OP_CHECKSIG)]

/-- The duplicate scan of `buildMultiKeyScript`: adjacent equality in the sorted
key list (`sortedPks[i].equals(sortedPks[i+1])`). -/
def hasAdjacentDuplicate : List (List Nat) → Bool
  | a :: b :: r => a = b || hasAdjacentDuplicate (b :: r)
  | _ => false

/-- The `scriptElements` assembled by `buildMultiKeyScript` for `≥ 2` keys. -/
def multiKeyChunks (sortedPks : List (List Nat)) (threshold : Int) (withVerify : Bool) :
    List Chunk :=
  match sortedPks with
  | [] => []
  | p0 :: rest =>
    [Chunk.buf p0, Chunk.op OP_CHECKSIG] ++
      (rest.map (fun pk => [Chunk.buf pk, Chunk.op OP_CHECKSIGADD])).flatten ++
      [Chunk.buf (scriptNumEncode threshold), Chunk.op OP_GREATERTHANOREQUAL] ++
      (if withVerify then [Chunk.op OP_VERIFY] else [])

/-- `buildMultiKeyScript(pks, threshold, withVerify)`.  Note that the in-source
`pks.sort(Buffer.compare)` sorts the caller's array in place; the value returned
here is unaffected, and the caller-visible mutation is exposed by
`buildMultiKeyScriptFinalState` below. -/
def buildMultiKeyScript (pks : List (List Nat)) (threshold : Int) (withVerify : Bool) :
    Except ScriptDataErr (List Nat) :=
  if pks.length = 0 then .error .noKeysProvided
  else if threshold > (pks.length : Int) then .error .thresholdExceedsKeys
  else if pks.length = 1 then .ok (buildSingleKeyScript (pks.headD []) withVerify)
  else
    let sortedPks := jsSortBuffersAsc pks
    if hasAdjacentDuplicate sortedPks then .error .duplicateKeys
    else .ok (compile (multiKeyChunks sortedPks threshold withVerify))

/-- Contents of the caller's `pks` array after `buildMultiKeyScript` returns or
throws: `pks.sort(Buffer.compare)` has mutated it in place unless the function
threw before reaching the sort (empty list, threshold too large) or skipped it
(single key). -/
def buildMultiKeyScriptFinalState (pks : List (List Nat)) (threshold : Int) :
    List (List Nat) :=
  if pks.length = 0 then pks
  else if threshold > (pks.length : Int) then pks
  else if pks.length = 1 then pks
  else jsSortBuffersAsc pks

/-- `buildUnbondingScript`. -/
def StakingScriptData.buildUnbondingScript (d : StakingScriptData) :
    Except ScriptDataErr (List Nat) := do
  let covenantPart ← buildMultiKeyScript d.covenantKeys d.covenantThreshold false
  return buildSingleKeyScript d.stakerKey true ++ covenantPart

/-- `buildSlashingScript`. -/
def StakingScriptData.buildSlashingScript (d : StakingScriptData) :
    Except ScriptDataErr (List Nat) := do
  let fpPart ← buildMultiKeyScript d.finalityProviderKeys 1 true
  let covenantPart ← buildMultiKeyScript d.covenantKeys d.covenantThreshold false
  return buildSingleKeyScript d.stakerKey true ++ fpPart ++ covenantPart

/-- `buildDataEmbedScript`:
`OP_RETURN <magicBytes ++ [version 0] ++ stakerKey ++ finalityProviderKeys[0] ++ timelock BE>`.
`Buffer.writeUInt16BE` throws a range error unless the value fits a uint16, and
`finalityProviderKeys[0]` on an empty list yields `undefined`, which
`Buffer.concat` rejects at runtime. -/
def StakingScriptData.buildDataEmbedScript (d : StakingScriptData) :
    Except ScriptDataErr (List Nat) :=
  if d.stakingTimeLock < 0 ∨ 65535 < d.stakingTimeLock then .error .jsRangeWriteUInt16
  else
    match d.finalityProviderKeys.head? with
    | none => .error .jsUndefinedAccess
    | some fp0 =>
      .ok (compile [Chunk.op OP_RETURN,
        Chunk.buf (d.magicBytes ++ [0] ++ d.stakerKey ++ fp0 ++
          [d.stakingTimeLock.toNat / 256 % 256, d.stakingTimeLock.toNat % 256])])

/-- `buildScripts` (the TS object literal evaluates its five properties in
declaration order). -/
def StakingScriptData.buildScripts (d : StakingScriptData) :
    Except ScriptDataErr StakingScripts := do
  let timelockScript := d.buildStakingTimelockScript
  let unbondingScript ← d.buildUnbondingScript
  let slashingScript ← d.buildSlashingScript
  let unbondingTimelockScript := d.buildUnbondingTimelockScript
  let dataEmbedScript ← d.buildDataEmbedScript
  return { timelockScript := timelockScript, unbondingScript := unbondingScript,
           slashingScript := slashingScript,
           unbondingTimelockScript := unbondingTimelockScript,
           dataEmbedScript := dataEmbedScript }

/-! ## Transactions (src/index.ts) -/

/-- Modelled from the spec: the fixed, unspendable, publicly known internal public
key of `src/constants/internalPubkey.ts` (that file is not among the provided
sources).  Every claim treats it opaquely, so its byte value is irrelevant; it is
fixed to an arbitrary 32-byte constant. -/
def internalPubkey : List Nat := List.replicate 32 0

/-- A taproot script tree (`Taptree` of bitcoinjs-lib). -/
inductive Taptree where
  | leaf (s : List Nat)
  | node (l r : Taptree)
  deriving DecidableEq, Repr

/-- A transaction output destination: either a caller-supplied address string
(kept opaque) or a freshly derived taproot output. -/
inductive Address where
  | external (id : Nat)
  | p2tr (internalKey : List Nat) (scriptTree : Taptree)
  deriving DecidableEq, Repr

/-- An output of an already-broadcast transaction (bitcoinjs `Transaction.outs`). -/
structure TxOut where
  value : Int
  script : List Nat
  deriving DecidableEq, Repr

/-- A previously-built transaction (only its outputs matter to this library). -/
structure BTCTx where
  outs : List TxOut
  deriving DecidableEq, Repr

def BTC_DUST_SAT : Int := 546

/-- The typeforce `Satoshi` predicate of bitcoinjs-lib `Transaction.addOutput`
(via `Psbt.addOutput`): an integer in `[0, 21 * 10^14]`.  In the `Int`-valued
models integrality is automatic. -/
def SATOSHI_MAX : Int := 2100000000000000

/-- Failures of the shared `withdrawalTransaction` routine.  The first four are
the structured validation failures thrown by the code itself; the last four model
non-structured runtime exceptions (script-number decode errors, property access on
`undefined` after an out-of-bounds index, and the `Psbt.addOutput` satoshi check). -/
inductive WithdrawErr where
  | feeRateNotPositive
  | negativeOutputIndex
  | timelockScriptInvalid
  | outputBelowDust
  | scriptNumOverflow
  | nonMinimalScriptNum
  | jsUndefinedAccess
  | invalidSatoshiValue
  deriving DecidableEq, Repr

/-- The timelock extraction at `timePosition = 2`: an opcode chunk is a JS
`number` (so the `% 16` wrap applies), a data chunk is decoded with
`script.number.decode`, and a missing chunk (`undefined`) makes `decode` fail with
a runtime type error. -/
def timePositionValue (decompiled : List Chunk) : Except WithdrawErr Int :=
  match decompiled.get? 2 with
  | none => .error .jsUndefinedAccess
  | some (Chunk.buf timeBuffer) =>
    match scriptNumDecode timeBuffer with
    | .error .overflow => .error .scriptNumOverflow
    | .error .nonMinimal => .error .nonMinimalScriptNum
    | .ok t => .ok t
  | some (Chunk.op n) =>
    let wrap : Int := (n : Int) % 16
    .ok (if wrap = 0 then 16 else wrap)

/-- The unsigned PSBT assembled by `withdrawalTransaction` (one input, one
output), plus the realized fee. -/
structure WithdrawResult where
  version : Int
  inputSourceTx : BTCTx
  inputIndex : Int
  inputWitnessValue : Int
  inputWitnessScript : List Nat
  inputLeafScript : List Nat
  inputScriptTree : Taptree
  inputSequence : Int
  outputAddress : Nat
  outputValue : Int
  fee : Int
  deriving DecidableEq, Repr

/-- The shared `withdrawalTransaction` of src/index.ts. -/
def withdrawalTransaction (timelockScript : List Nat) (scriptTree : Taptree)
    (tx : BTCTx) (withdrawalAddress : Nat) (feeRate : Int) (outputIndex : Int) :
    Except WithdrawErr WithdrawResult :=
  if feeRate ≤ 0 then .error .feeRateNotPositive
  else if outputIndex < 0 then .error .negativeOutputIndex
  else
    match decompile timelockScript with
    | none => .error .timelockScriptInvalid
    | some decompiled =>
      match timePositionValue decompiled with
      | .error e => .error e
      | .ok timelock =>
        match tx.outs.get? outputIndex.toNat with
        | none => .error .jsUndefinedAccess
        | some out =>
          let outputValue := out.value
          if outputValue < BTC_DUST_SAT then .error .outputBelowDust
          else
            let estimatedFee := getEstimatedFee feeRate 1 1
            let v := outputValue - estimatedFee
            if v < 0 ∨ SATOSHI_MAX < v then .error .invalidSatoshiValue
            else .ok {
              version := 2, inputSourceTx := tx, inputIndex := outputIndex,
              inputWitnessValue := out.value, inputWitnessScript := out.script,
              inputLeafScript := timelockScript, inputScriptTree := scriptTree,
              inputSequence := timelock, outputAddress := withdrawalAddress,
              outputValue := v, fee := estimatedFee }

/-- `withdrawEarlyUnbondedTransaction`: tree `{slashing, unbondingTimelock}`,
redeem leaf `unbondingTimelockScript`. -/
def withdrawEarlyUnbondedTransaction (unbondingTimelockScript slashingScript : List Nat)
    (tx : BTCTx) (withdrawalAddress : Nat) (feeRate : Int) (outputIndex : Int) :
    Except WithdrawErr WithdrawResult :=
  withdrawalTransaction unbondingTimelockScript
    (Taptree.node (Taptree.leaf slashingScript) (Taptree.leaf unbondingTimelockScript))
    tx withdrawalAddress feeRate outputIndex

/-- `withdrawTimelockUnbondedTransaction`: tree `{slashing, {unbonding, timelock}}`,
redeem leaf `timelockScript`. -/
def withdrawTimelockUnbondedTransaction (timelockScript slashingScript unbondingScript : List Nat)
    (tx : BTCTx) (withdrawalAddress : Nat) (feeRate : Int) (outputIndex : Int) :
    Except WithdrawErr WithdrawResult :=
  withdrawalTransaction timelockScript
    (Taptree.node (Taptree.leaf slashingScript)
      (Taptree.node (Taptree.leaf unbondingScript) (Taptree.leaf timelockScript)))
    tx withdrawalAddress feeRate outputIndex

/-- Failures of the shared `slashingTransaction` routine.  The first three are the
structured failures thrown by the code; the last two model non-structured runtime
exceptions (`transaction.outs[0]` on an output-less transaction, and the
`Psbt.addOutput` satoshi check, which rejects non-integer and out-of-range
values). -/
inductive SlashErr where
  | rateOrFeeNotPositive
  | negativeOutputIndex
  | notEnoughFundsToSlash
  | jsUndefinedAccess
  | invalidSatoshiValue
  deriving DecidableEq, Repr

/-- One output of a slashing PSBT (value in exact rational arithmetic, mirroring
the JS float expressions `outs[0].value * slashingRate` and
`outs[0].value * (1 - slashingRate) - minimumFee`). -/
structure SlashOutput where
  address : Address
  value : ℚ
  deriving DecidableEq, Repr

/-- The unsigned PSBT assembled by `slashingTransaction`. -/
structure SlashResult where
  inputSourceTx : BTCTx
  inputIndex : Int
  inputWitnessValue : Int
  inputWitnessScript : List Nat
  inputLeafScript : List Nat
  inputScriptTree : Taptree
  outputs : List SlashOutput
  deriving DecidableEq, Repr

/-- The shared `slashingTransaction` of src/index.ts.  Note that every value read
is taken from `transaction.outs[0]` — the `outputIndex` parameter is used only as
the input's `index` field — and that no `slashingRate < 1` check and no flooring
of `outs[0].value * slashingRate` is performed. -/
def slashingTransaction (unbondingTimelockScript slashingScript : List Nat)
    (scriptTree : Taptree) (transaction : BTCTx) (slashingAddress : Nat)
    (slashingRate minimumFee : ℚ) (outputIndex : Int) : Except SlashErr SlashResult :=
  if slashingRate ≤ 0 ∨ minimumFee ≤ 0 then .error .rateOrFeeNotPositive
  else if outputIndex < 0 then .error .negativeOutputIndex
  else
    match transaction.outs.head? with
    | none => .error .jsUndefinedAccess
    | some out0 =>
      let userValue : ℚ := (out0.value : ℚ) * (1 - slashingRate) - minimumFee
      if userValue ≤ 0 then .error .notEnoughFundsToSlash
      else
        let slashValue : ℚ := (out0.value : ℚ) * slashingRate
        if ¬(slashValue.den = 1 ∧ 0 ≤ slashValue ∧ slashValue ≤ (SATOSHI_MAX : ℚ)) then
          .error .invalidSatoshiValue
        else if ¬(userValue.den = 1 ∧ 0 ≤ userValue ∧ userValue ≤ (SATOSHI_MAX : ℚ)) then
          .error .invalidSatoshiValue
        else .ok {
          inputSourceTx := transaction, inputIndex := outputIndex,
          inputWitnessValue := out0.value, inputWitnessScript := out0.script,
          inputLeafScript := slashingScript, inputScriptTree := scriptTree,
          outputs := [
            { address := Address.external slashingAddress, value := slashValue },
            { address := Address.p2tr internalPubkey
                (Taptree.leaf unbondingTimelockScript),
              value := userValue }] }

/-- `slashTimelockUnbondedTransaction`: the input tree is the staking tree
`{slashing, {unbonding, timelock}}`. -/
def slashTimelockUnbondedTransaction
    (slashingScript timelockScript unbondingScript unbondingTimelockScript : List Nat)
    (stakingTransaction : BTCTx) (slashingAddress : Nat)
    (slashingRate minimumFee : ℚ) (outputIndex : Int) : Except SlashErr SlashResult :=
  slashingTransaction unbondingTimelockScript slashingScript
    (Taptree.node (Taptree.leaf slashingScript)
      (Taptree.node (Taptree.leaf unbondingScript) (Taptree.leaf timelockScript)))
    stakingTransaction slashingAddress slashingRate minimumFee outputIndex

/-- `slashEarlyUnbondedTransaction`: the input tree is the unbonding-output tree
`{slashing, unbondingTimelock}`. -/
def slashEarlyUnbondedTransaction
    (slashingScript unbondingTimelockScript : List Nat)
    (stakingTransaction : BTCTx) (slashingAddress : Nat)
    (slashingRate minimumFee : ℚ) (outputIndex : Int) : Except SlashErr SlashResult :=
  slashingTransaction unbondingTimelockScript slashingScript
    (Taptree.node (Taptree.leaf slashingScript) (Taptree.leaf unbondingTimelockScript))
    stakingTransaction slashingAddress slashingRate minimumFee outputIndex

/-- Failures of `unbondingTransaction` (structured checks plus runtime
exceptions, as above). -/
inductive UnbondErr where
  | feeNotPositive
  | negativeOutputIndex
  | jsUndefinedAccess
  | invalidSatoshiValue
  deriving DecidableEq, Repr

/-- The unsigned PSBT assembled by `unbondingTransaction`. -/
structure UnbondResult where
  inputSourceTx : BTCTx
  inputIndex : Int
  inputWitnessValue : Int
  inputWitnessScript : List Nat
  inputLeafScript : List Nat
  inputScriptTree : Taptree
  outputs : List (Address × Int)
  deriving DecidableEq, Repr

/-- `unbondingTransaction` of src/index.ts.  As in `slashingTransaction`, every
value read is taken from `stakingTx.outs[0]`; `outputIndex` only becomes the
input's `index` field. -/
def unbondingTransaction
    (unbondingScript unbondingTimelockScript timelockScript slashingScript : List Nat)
    (stakingTx : BTCTx) (transactionFee : Int) (outputIndex : Int) :
    Except UnbondErr UnbondResult :=
  if transactionFee ≤ 0 then .error .feeNotPositive
  else if outputIndex < 0 then .error .negativeOutputIndex
  else
    match stakingTx.outs.head? with
    | none => .error .jsUndefinedAccess
    | some out0 =>
      let v := out0.value - transactionFee
      if v < 0 ∨ SATOSHI_MAX < v then .error .invalidSatoshiValue
      else .ok {
        inputSourceTx := stakingTx, inputIndex := outputIndex,
        inputWitnessValue := out0.value, inputWitnessScript := out0.script,
        inputLeafScript := unbondingScript,
        inputScriptTree := Taptree.node (Taptree.leaf slashingScript)
          (Taptree.node (Taptree.leaf unbondingScript) (Taptree.leaf timelockScript)),
        outputs := [(Address.p2tr internalPubkey
          (Taptree.node (Taptree.leaf slashingScript)
            (Taptree.leaf unbondingTimelockScript)), v)] }

/-- A covenant committee signature pair, after the hex fields of the API response
are decoded to bytes (`Buffer.from(_, "hex")`). -/
structure CovenantSignature where
  btcPkHex : List Nat
  sigHex : List Nat
  deriving DecidableEq, Repr

/-- `createWitness` of src/index.ts: copy-sort the covenant keys ascending with
`Buffer.compare`, reverse to descending, map each key to the first collected
signature with an equal public key (or a zero-length placeholder), and append the
original witness elements. -/
def createWitness (originalWitness : List (List Nat))
    (paramsCovenants : List (List Nat)) (covenantSigs : List CovenantSignature) :
    List (List Nat) :=
  let paramsCovenantsSorted := (jsSortBuffersAsc paramsCovenants).reverse
  let composedCovenantSigs := paramsCovenantsSorted.map (fun covenant =>
    match covenantSigs.find? (fun sig => bufferCompare sig.btcPkHex covenant = Ordering.eq) with
    | some covenantSig => covenantSig.sigHex
    | none => [])
  composedCovenantSigs ++ originalWitness

/-! ## Concrete sample data used by witnesses and counterexamples -/

def sampleKeyA : List Nat := List.replicate 32 7

def sampleKeyB : List Nat := 8 :: List.replicate 31 7

def sampleUTXO1 : UTXO := { txid := 1, vout := 0, value := 5000, scriptPubKey := [] }

def sampleUTXO2 : UTXO := { txid := 2, vout := 0, value := 3000, scriptPubKey := [] }

def sampleTx100k : BTCTx := { outs := [{ value := 100000, script := [1] }] }

def sampleTx100001 : BTCTx := { outs := [{ value := 100001, script := [1] }] }

def sampleTxTwoOuts : BTCTx :=
  { outs := [{ value := 100000, script := [5] }, { value := 200000, script := [6] }] }

def sampleDustTx : BTCTx := { outs := [{ value := 546, script := [1] }] }

/-- The `ScriptParameters` used to exhibit the missing construction-time checks:
the staker key occurs among the finality-provider keys and among the covenant
keys, the first finality-provider key occurs among the covenant keys, the
covenant threshold is below 1, the unbonding timelock exceeds 65535, and the
magic bytes are 3 bytes long. -/
def c2FailingData : StakingScriptData :=
  { stakerKey := sampleKeyA, finalityProviderKeys := [sampleKeyA],
    covenantKeys := [sampleKeyA, sampleKeyB], covenantThreshold := 0,
    stakingTimeLock := 100, unbondingTimeLock := 70000, magicBytes := [1, 2, 3] }

/-! ## Canonical chunks and round-trip machinery -/

/-- A chunk as produced by the script builders: opcodes outside the push range,
data pushes shorter than `OP_PUSHDATA1` territory. -/
def canonicalChunk : Chunk → Prop
  | .op o => o = 0 ∨ 79 ≤ o
  | .buf b => b.length < 76

/-- The canonical representative `decompile` returns for a chunk. -/
def minRep : Chunk → Chunk
  | .op o => .op o
  | .buf b => chunkOfData b

/-- The chunk stored at position 2 of the decompiled timelock script: the small
opcode encoding for `t ≤ 16`, the minimal buffer encoding otherwise. -/
def timelockChunk (t : Int) : Chunk :=
  if t ≤ 16 then Chunk.op (80 + t.toNat) else Chunk.buf (scriptNumEncode t)

/-! ## Helper lemmas -/

lemma scriptNumEncode_case1 (t : Int) (h1 : 1 ≤ t) (h2 : t ≤ 127) :
    scriptNumEncode t = [t.toNat] := by
  have hv : t.natAbs = t.toNat := by omega
  unfold scriptNumEncode scriptNumSize
  rw [if_neg (by omega)]
  rw [if_neg (by omega), if_neg (by omega), if_neg (by omega), if_neg (by omega),
    if_pos (by omega)]
  simp [natToBytesLE, hv]
  omega

lemma scriptNumEncode_case2 (t : Int) (h1 : 128 ≤ t) (h2 : t ≤ 32767) :
    scriptNumEncode t = [t.toNat % 256, t.toNat / 256] := by
  have hv : t.natAbs = t.toNat := by omega
  unfold scriptNumEncode scriptNumSize
  rw [if_neg (by omega)]
  rw [if_neg (by omega), if_neg (by omega), if_neg (by omega), if_pos (by omega)]
  simp [natToBytesLE, hv]
  omega

lemma scriptNumEncode_case3 (t : Int) (h1 : 32768 ≤ t) (h2 : t ≤ 65535) :
    scriptNumEncode t = [t.toNat % 256, t.toNat / 256, 0] := by
  have hv : t.natAbs = t.toNat := by omega
  unfold scriptNumEncode scriptNumSize
  rw [if_neg (by omega)]
  rw [if_neg (by omega), if_neg (by omega), if_pos (by omega)]
  simp [natToBytesLE, hv]
  refine ⟨?_, ?_⟩ <;> omega

lemma scriptNumDecode_encode_ok (t : Int) (h1 : 1 ≤ t) (h2 : t ≤ 65535) :
    scriptNumDecode (scriptNumEncode t) = .ok t := by
  rcases le_or_lt t 127 with hA | hA
  · rw [scriptNumEncode_case1 t h1 hA]
    unfold scriptNumDecode
    rw [if_neg (by simp), if_neg (by simp)]
    rw [if_neg (by simp; omega)]
    rw [if_neg (by simp; omega)]
    simp [bytesToNatLE]
    omega
  · rcases le_or_lt t 32767 with hB | hB
    · rw [scriptNumEncode_case2 t (by omega) hB]
      unfold scriptNumDecode
      rw [if_neg (by simp), if_neg (by simp)]
      rw [if_neg ?side1]
      case side1 =>
        simp
        intro hz
        omega
      rw [if_neg ?side2]
      case side2 =>
        simp
        omega
      simp [bytesToNatLE]
      omega
    · rw [scriptNumEncode_case3 t (by omega) h2]
      unfold scriptNumDecode
      rw [if_neg (by simp), if_neg (by simp)]
      rw [if_neg ?side3]
      case side3 =>
        simp
        omega
      rw [if_neg (by simp)]
      simp [bytesToNatLE]
      omega

lemma asMinimalOP_of_two_le (b : List Nat) (h : 2 ≤ b.length) : asMinimalOP b = none := by
  match b, h with
  | x :: y :: r, _ => rfl

lemma asMinimalOP_some_range (b : List Nat) (o : Nat) (h : asMinimalOP b = some o) :
    o = 0 ∨ (79 ≤ o ∧ o ≤ 96) := by
  match b with
  | [] => simp [asMinimalOP] at h; omega
  | [x] =>
    simp only [asMinimalOP] at h
    split_ifs at h with hx h129
    · simp only [Option.some.injEq] at h
      unfold OP_RESERVED at h
      omega
    · simp only [Option.some.injEq] at h
      unfold OP_1NEGATE at h
      omega
  | x :: y :: r => simp [asMinimalOP] at h

lemma decompileGo_compile (cs : List Chunk) : ∀ (fuel : Nat),
    (compile cs).length ≤ fuel →
    (∀ c ∈ cs, canonicalChunk c) →
    decompileGo fuel (compile cs) = some (cs.map minRep) := by
  induction cs with
  | nil =>
    intro fuel _ _
    simp [compile]
    cases fuel <;> rfl
  | cons c cs ih =>
    intro fuel hfuel hcanon
    have hc : canonicalChunk c := hcanon c (by simp)
    have hcs : ∀ c' ∈ cs, canonicalChunk c' := fun c' h => hcanon c' (by simp [h])
    have hbytes : compile (c :: cs) = compileChunk c ++ compile cs := by
      simp [compile]
    match c with
    | .op o =>
      have hop : o = 0 ∨ 79 ≤ o := hc
      have hcc : compileChunk (Chunk.op o) = [o] := rfl
      rw [hbytes, hcc] at hfuel ⊢
      simp only [List.cons_append, List.nil_append] at hfuel ⊢
      match fuel, hfuel with
      | f + 1, hfuel =>
        show decompileGo (f + 1) (o :: compile cs) = _
        unfold decompileGo
        rw [if_neg (by omega), if_neg (by omega), if_neg (by omega), if_neg (by omega)]
        rw [ih f (by simp at hfuel; omega) hcs]
        simp [minRep]
    | .buf b =>
      match hmin : asMinimalOP b with
      | some o =>
        have hop := asMinimalOP_some_range b o hmin
        have hcc : compileChunk (Chunk.buf b) = [o] := by
          simp [compileChunk, hmin]
        rw [hbytes, hcc] at hfuel ⊢
        simp only [List.cons_append, List.nil_append] at hfuel ⊢
        match fuel, hfuel with
        | f + 1, hfuel =>
          show decompileGo (f + 1) (o :: compile cs) = _
          unfold decompileGo
          rw [if_neg (by omega), if_neg (by omega), if_neg (by omega), if_neg (by omega)]
          rw [ih f (by simp at hfuel; omega) hcs]
          simp [minRep, chunkOfData, hmin]
      | none =>
        have hlen : b.length < 76 := hc
        have hlen1 : 1 ≤ b.length := by
          rcases b with _ | ⟨x, r⟩
          · simp [asMinimalOP] at hmin
          · simp
        have hcc : compileChunk (Chunk.buf b) = b.length :: b := by
          simp [compileChunk, hmin, pushHeader, if_pos hlen]
        rw [hbytes, hcc] at hfuel ⊢
        simp only [List.cons_append] at hfuel ⊢
        match fuel, hfuel with
        | f + 1, hfuel =>
          show decompileGo (f + 1) (b.length :: (b ++ compile cs)) = _
          unfold decompileGo
          rw [if_pos (by constructor <;> omega)]
          rw [if_pos (by simp)]
          rw [List.take_left' rfl, List.drop_left' rfl]
          rw [ih f (by simp at hfuel; omega) hcs]
          simp [minRep]

lemma scriptNumEncode_length_le (t : Int) (h1 : 1 ≤ t) (h2 : t ≤ 65535) :
    (scriptNumEncode t).length ≤ 3 := by
  rcases le_or_lt t 127 with h | h
  · rw [scriptNumEncode_case1 t h1 h]; simp
  · rcases le_or_lt t 32767 with h' | h'
    · rw [scriptNumEncode_case2 t (by omega) h']; simp
    · rw [scriptNumEncode_case3 t (by omega) h2]; simp

lemma asMinimalOP_key (key : List Nat) (hk : key.length = 32) : asMinimalOP key = none :=
  asMinimalOP_of_two_le key (by omega)

lemma chunkOfData_scriptNumEncode (t : Int) (h1 : 1 ≤ t) (h2 : t ≤ 65535) :
    chunkOfData (scriptNumEncode t) = timelockChunk t := by
  unfold timelockChunk
  rcases le_or_lt t 16 with h16 | h16
  · rw [if_pos h16, scriptNumEncode_case1 t h1 (by omega)]
    unfold chunkOfData
    simp only [asMinimalOP]
    rw [if_pos (by omega)]
    simp [OP_RESERVED]
  · rw [if_neg (by omega)]
    rcases le_or_lt t 127 with hr | hr
    · rw [scriptNumEncode_case1 t h1 hr]
      unfold chunkOfData
      simp only [asMinimalOP]
      rw [if_neg (by omega), if_neg (by omega)]
    · rcases le_or_lt t 32767 with hr2 | hr2
      · rw [scriptNumEncode_case2 t (by omega) hr2]; rfl
      · rw [scriptNumEncode_case3 t (by omega) h2]; rfl

lemma decompile_buildTimelockScript (key : List Nat) (t : Int) (hk : key.length = 32)
    (h1 : 1 ≤ t) (h2 : t ≤ 65535) :
    decompile (buildTimelockScript key t) =
      some [Chunk.buf key, Chunk.op OP_CHECKSIGVERIFY, timelockChunk t,
        Chunk.op OP_CHECKSEQUENCEVERIFY] := by
  have hcanon : ∀ c ∈ [Chunk.buf key, Chunk.op OP_CHECKSIGVERIFY,
      Chunk.buf (scriptNumEncode t), Chunk.op OP_CHECKSEQUENCEVERIFY], canonicalChunk c := by
    intro c hc
    have hlenc := scriptNumEncode_length_le t h1 h2
    simp only [List.mem_cons, List.not_mem_nil, or_false] at hc
    rcases hc with rfl | rfl | rfl | rfl
    · show key.length < 76; omega
    · show OP_CHECKSIGVERIFY = 0 ∨ 79 ≤ OP_CHECKSIGVERIFY; right; decide
    · show (scriptNumEncode t).length < 76; omega
    · show OP_CHECKSEQUENCEVERIFY = 0 ∨ 79 ≤ OP_CHECKSEQUENCEVERIFY; right; decide
  have h := decompileGo_compile [Chunk.buf key, Chunk.op OP_CHECKSIGVERIFY,
      Chunk.buf (scriptNumEncode t), Chunk.op OP_CHECKSEQUENCEVERIFY]
    (compile [Chunk.buf key, Chunk.op OP_CHECKSIGVERIFY,
      Chunk.buf (scriptNumEncode t), Chunk.op OP_CHECKSEQUENCEVERIFY]).length
    le_rfl hcanon
  have hkey : chunkOfData key = Chunk.buf key := by
    simp [chunkOfData, asMinimalOP_key key hk]
  unfold buildTimelockScript decompile
  rw [h]
  simp [minRep, hkey, chunkOfData_scriptNumEncode t h1 h2]

lemma timePositionValue_timelockChunk (key : List Nat) (t : Int)
    (h1 : 1 ≤ t) (h2 : t ≤ 65535) :
    timePositionValue [Chunk.buf key, Chunk.op OP_CHECKSIGVERIFY, timelockChunk t,
      Chunk.op OP_CHECKSEQUENCEVERIFY] = .ok t := by
  unfold timePositionValue timelockChunk
  rcases le_or_lt t 16 with h16 | h16
  · rw [if_pos h16]
    simp only [List.get?]
    have : ((80 + t.toNat : Nat) : Int) % 16 = t % 16 := by omega
    simp only [this]
    rcases eq_or_lt_of_le h1 with h | h
    · norm_num [← h]
    · rcases lt_or_eq_of_le h16 with h' | h'
      · rw [if_neg (by omega)]
        congr 1
        omega
      · rw [h']
        norm_num
  · rw [if_neg (by omega)]
    simp only [List.get?]
    rw [scriptNumDecode_encode_ok t h1 h2]

lemma inputValueSum_shift (l : List UTXO) : ∀ a : Int,
    l.foldl (fun acc utxo => acc + utxo.value) a = a + inputValueSum l := by
  induction l with
  | nil => intro a; simp [inputValueSum]
  | cons u l ih =>
    intro a
    simp only [List.foldl_cons, inputValueSum] at *
    rw [ih (a + u.value), ih (0 + u.value)]
    ring

lemma inputValueSum_append (l1 l2 : List UTXO) :
    inputValueSum (l1 ++ l2) = inputValueSum l1 + inputValueSum l2 := by
  unfold inputValueSum
  rw [List.foldl_append, inputValueSum_shift]
  rfl

lemma getStakingTxGo_spec (A F O : Int) :
    ∀ (rest sel : List UTXO) (f0 : Option Int),
    ∃ m, m ≤ rest.length ∧ (rest ≠ [] → 1 ≤ m) ∧
      (getStakingTxGo A F O rest sel (inputValueSum sel) f0).1 = sel ++ rest.take m ∧
      (getStakingTxGo A F O rest sel (inputValueSum sel) f0).2.1 =
        inputValueSum (sel ++ rest.take m) ∧
      (getStakingTxGo A F O rest sel (inputValueSum sel) f0).2.2 =
        (if rest.isEmpty then f0
         else some (getEstimatedFee F ((sel.length : Int) + m) O)) ∧
      (∀ j, 1 ≤ j → j < m →
        inputValueSum (sel ++ rest.take j) <
          A + getEstimatedFee F ((sel.length : Int) + j) O) ∧
      (m < rest.length →
        A + getEstimatedFee F ((sel.length : Int) + m) O ≤
          inputValueSum (sel ++ rest.take m)) := by
  intro rest
  induction rest with
  | nil =>
    intro sel f0
    refine ⟨0, by simp, by simp, by simp [getStakingTxGo], by simp [getStakingTxGo], ?_, ?_, ?_⟩
    · simp [getStakingTxGo]
    · intro j hj1 hj2; omega
    · intro h; simp at h
  | cons u rest ih =>
    intro sel f0
    have hacc' : inputValueSum sel + u.value = inputValueSum (sel ++ [u]) := by
      rw [inputValueSum_append]; simp [inputValueSum]
    have hlen' : ((sel ++ [u]).length : Int) = (sel.length : Int) + 1 := by
      simp
    by_cases hstop :
        A + getEstimatedFee F (((sel ++ [u]).length : Int)) O ≤ inputValueSum sel + u.value
    · refine ⟨1, by simp, fun _ => le_rfl, ?_, ?_, ?_, ?_, ?_⟩
      · simp only [getStakingTxGo, if_pos hstop, List.take_succ_cons, List.take_zero]
      · simp only [getStakingTxGo, if_pos hstop, List.take_succ_cons, List.take_zero]
        rw [hacc']
      · simp only [getStakingTxGo, if_pos hstop, List.take_succ_cons, List.take_zero,
          List.isEmpty_cons]
        rw [hlen']
        simp
      · intro j hj1 hj2; omega
      · intro _
        simp only [List.take_succ_cons, List.take_zero]
        rw [← hacc']
        calc A + getEstimatedFee F ((sel.length : Int) + 1) O
            = A + getEstimatedFee F (((sel ++ [u]).length : Int)) O := by rw [hlen']
          _ ≤ inputValueSum sel + u.value := hstop
    · obtain ⟨m', hm'len, _, hsel, hsum, hfee, hmin, hstop'⟩ :=
        ih (sel ++ [u]) (some (getEstimatedFee F (((sel ++ [u]).length : Int)) O))
      have hgo : getStakingTxGo A F O (u :: rest) sel (inputValueSum sel) f0 =
          getStakingTxGo A F O rest (sel ++ [u]) (inputValueSum (sel ++ [u]))
            (some (getEstimatedFee F (((sel ++ [u]).length : Int)) O)) := by
        simp only [getStakingTxGo, if_neg hstop]
        rw [hacc']
      refine ⟨m' + 1, by simp; omega, fun _ => by omega, ?_, ?_, ?_, ?_, ?_⟩
      · rw [hgo, hsel]
        simp [List.take_succ_cons]
      · rw [hgo, hsum]
        simp [List.take_succ_cons]
      · rw [hgo, hfee]
        rcases rest with _ | ⟨v, rest2⟩
        · have hm0 : m' = 0 := by simpa using hm'len
          subst hm0
          simp only [List.isEmpty_nil, List.isEmpty_cons, if_true]
          rw [hlen']
          norm_num
        · simp only [List.isEmpty_cons]
          norm_num [hlen']
          ring_nf
      · intro j hj1 hj2
        rcases Nat.eq_or_lt_of_le hj1 with hj | hj
        · subst hj
          simp only [List.take_succ_cons, List.take_zero]
          rw [← hacc']
          have : ((sel.length : Int) + (1 : Nat)) = ((sel ++ [u]).length : Int) := by
            rw [hlen']; push_cast; ring
          rw [this]
          omega
        · have hj' : 1 ≤ j - 1 ∧ j - 1 < m' := by omega
          have hmin' := hmin (j - 1) hj'.1 hj'.2
          have hass : sel ++ List.take j (u :: rest) = (sel ++ [u]) ++ List.take (j - 1) rest := by
            have hj2' : j = (j - 1) + 1 := by omega
            rw [hj2']
            simp [List.take_succ_cons]
          rw [hass]
          calc inputValueSum ((sel ++ [u]) ++ List.take (j - 1) rest)
              < A + getEstimatedFee F (((sel ++ [u]).length : Int) + ((j - 1 : Nat) : Int)) O := hmin'
            _ = A + getEstimatedFee F ((sel.length : Int) + (j : Nat)) O := by
                congr 2
                rw [hlen']
                omega
      · intro hm
        have hm2 : m' < rest.length := by simp at hm; omega
        have hstop2 := hstop' hm2
        have hass : sel ++ List.take (m' + 1) (u :: rest) = (sel ++ [u]) ++ List.take m' rest := by
          simp [List.take_succ_cons]
        rw [hass]
        calc A + getEstimatedFee F ((sel.length : Int) + ((m' + 1 : Nat) : Int)) O
            = A + getEstimatedFee F (((sel ++ [u]).length : Int) + (m' : Nat)) O := by
              congr 2
              rw [hlen']
              push_cast
              ring
          _ ≤ inputValueSum ((sel ++ [u]) ++ List.take m' rest) := hstop2

lemma getEstimatedFee_pos (F k O : Int) (hF : 0 < F) (hO : 0 ≤ O) (hk : 1 ≤ k) :
    0 < getEstimatedFee F k O := by
  unfold getEstimatedFee INPUT_SIZE_FOR_FEE_CAL OUTPUT_SIZE_FOR_FEE_CAL
    TX_BUFFER_SIZE_FOR_FEE_CAL ESTIMATED_OP_RETURN_SIZE
  have h1 : 0 < k * 180 + O * 34 + 10 + k + 40 := by omega
  exact mul_pos h1 hF


lemma withdrawalTransaction_eval (key : List Nat) (t : Int) (tree : Taptree)
    (tx : BTCTx) (addr : Nat) (feeRate idx : Int) (out : TxOut)
    (hk : key.length = 32) (h1 : 1 ≤ t) (h2 : t ≤ 65535)
    (hfr : 0 < feeRate) (hidx : 0 ≤ idx)
    (hout : tx.outs.get? idx.toNat = some out) :
    withdrawalTransaction (buildTimelockScript key t) tree tx addr feeRate idx =
      (if out.value < BTC_DUST_SAT then .error .outputBelowDust
       else if out.value - getEstimatedFee feeRate 1 1 < 0 ∨
           SATOSHI_MAX < out.value - getEstimatedFee feeRate 1 1 then
         .error .invalidSatoshiValue
       else .ok (⟨2, tx, idx, out.value, out.script, buildTimelockScript key t,
         tree, t, addr, out.value - getEstimatedFee feeRate 1 1,
         getEstimatedFee feeRate 1 1⟩ : WithdrawResult)) := by
  unfold withdrawalTransaction
  rw [if_neg (by omega), if_neg (by omega),
    decompile_buildTimelockScript key t hk h1 h2]
  simp only [timePositionValue_timelockChunk key t h1 h2, hout]


/-! ## Claim theorems -/

/-- Claim C8: `createWitness` maps the covenant keys, sorted descending by byte
value (a permutation of the input key list, pairwise-descending under the
`Buffer.compare` order), to the matching collected signature (by public-key
equality) or to a zero-length placeholder when none matches, and appends the
original witness elements unchanged; in particular with 2 covenant keys and 1
matching signature the output is [real signature, empty placeholder] in
descending key order followed by the original witness. -/
theorem c8_createWitness_descending_with_placeholders
    (w ks : List (List Nat)) (sigs : List CovenantSignature) :
    List.Perm ((jsSortBuffersAsc ks).reverse) ks ∧
    List.Pairwise (fun a b => bufferLe b a) ((jsSortBuffersAsc ks).reverse) ∧
    createWitness w ks sigs =
      ((jsSortBuffersAsc ks).reverse).map (fun covenant =>
        match sigs.find? (fun sig => bufferCompare sig.btcPkHex covenant = Ordering.eq) with
        | some covenantSig => covenantSig.sigHex
        | none => []) ++ w ∧
    (createWitness w ks sigs).length = ks.length + w.length ∧
    createWitness [[9]] [[1], [2]] [{ btcPkHex := [2], sigHex := [7, 7] }] =
      [[7, 7], [], [9]] := by
  have hp : List.Perm (jsSortBuffersAsc ks) ks := List.perm_insertionSort bufferLe ks
  refine ⟨(List.reverse_perm _).trans hp, ?_, rfl, ?_, by decide⟩
  · exact List.pairwise_reverse.2 (List.sorted_insertionSort bufferLe ks)
  · simp [createWitness, jsSortBuffersAsc, hp.length_eq]

/-- Claim C9, amended: the operations perform no I/O and are deterministic, but two
of them mutate an argument array in place via `Array.prototype.sort`:
`getStakingTxInputUTXOsAndFees` leaves the caller's `availableUTXOs` sorted
descending by value (a permutation of the original, not the original order), and
`buildMultiKeyScript` leaves its `pks` array sorted ascending under
`Buffer.compare` whenever it reaches the sort (more than one key, threshold not
exceeding the key count). -/
theorem c9_inPlace_sorts_permute_arguments
    (avail : List UTXO) (pks : List (List Nat)) (threshold : Int) :
    List.Perm (getStakingTxInputUTXOsAndFeesFinalState avail) avail ∧
    List.Pairwise utxoValueGe (getStakingTxInputUTXOsAndFeesFinalState avail) ∧
    List.Perm (buildMultiKeyScriptFinalState pks threshold) pks ∧
    (threshold ≤ (pks.length : Int) →
      List.Pairwise bufferLe (buildMultiKeyScriptFinalState pks threshold)) := by
  refine ⟨?_, ?_, ?_, ?_⟩
  · unfold getStakingTxInputUTXOsAndFeesFinalState
    split
    · exact List.Perm.refl _
    · exact List.perm_insertionSort _ _
  · unfold getStakingTxInputUTXOsAndFeesFinalState
    split
    · next h =>
      rw [List.length_eq_zero] at h
      simp [h]
    · exact List.sorted_insertionSort _ _
  · unfold buildMultiKeyScriptFinalState
    split_ifs
    · exact List.Perm.refl _
    · exact List.Perm.refl _
    · exact List.Perm.refl _
    · exact List.perm_insertionSort _ _
  · intro h
    unfold buildMultiKeyScriptFinalState
    split_ifs with h0 h1 h2
    · rw [List.length_eq_zero] at h0
      simp [h0]
    · omega
    · obtain ⟨a, ha⟩ := List.length_eq_one.1 h2
      simp [ha]
    · exact List.sorted_insertionSort _ _

/-- Claim C9 counterexample: the claim "after a call to
`getStakingTxInputUTXOsAndFees` the caller's `availableUTXOs` list is unchanged
(same order)" and "the caller's public-key list retains its original element
order" are both false: the in-place sorts reorder these concrete two-element
arrays. -/
theorem c9_counterexample_arrays_reordered :
    getStakingTxInputUTXOsAndFeesFinalState [sampleUTXO2, sampleUTXO1] ≠
      [sampleUTXO2, sampleUTXO1] ∧
    buildMultiKeyScriptFinalState [[2], [1]] 1 ≠ [[2], [1]] := by
  decide

/-- Claim C9 witness: the amended theorem applied at a concrete input with its
hypothesis discharged. -/
theorem c9_witness :
    List.Pairwise bufferLe (buildMultiKeyScriptFinalState [[2], [1]] 1) :=
  (c9_inPlace_sorts_permute_arguments [] [[2], [1]] 1).2.2.2 (by decide)

/-- Claim C1, evaluation at the failing input (code bug): against the claimed
`slashedAmount = floor(sourceValue * slashingRate)` with `sourceValue =
outs[outputIndex]`, the code (1) applies no floor — with `outs[0].value = 100001`
and rate `1/2` it hands the non-integer `50000.5` to `Psbt.addOutput`, which
rejects it at runtime, where the claim requires a first output of
`⌊100001 * 1/2⌋ = 50000`; and (2) reads `outs[0]` regardless of `outputIndex` —
with `outs = [100000, 200000]` and `outputIndex = 1` the outputs are `50000` and
`49500`, not the `100000` the claim computes from `outs[1]`.  The claim's
concrete scenario (`sourceValue = 100000`, rate `0.5`, fee `500` ⇒ outputs
`50000`/`49500`) does hold. -/
theorem c1_slashing_no_floor_and_outs0_eval :
    slashTimelockUnbondedTransaction [3] [1] [2] [4] sampleTx100001 42 (1/2 : ℚ) 500 0 =
      .error .invalidSatoshiValue ∧
    ((100001 : ℚ) * (1 / 2)).den ≠ 1 ∧
    ⌊(100001 : ℚ) * (1 / 2)⌋ = 50000 ∧
    slashTimelockUnbondedTransaction [3] [1] [2] [4] sampleTxTwoOuts 42 (1/2 : ℚ) 500 1 =
      .ok { inputSourceTx := sampleTxTwoOuts, inputIndex := 1, inputWitnessValue := 100000,
            inputWitnessScript := [5], inputLeafScript := [3],
            inputScriptTree := .node (.leaf [3]) (.node (.leaf [2]) (.leaf [1])),
            outputs := [
              { address := Address.external 42, value := 50000 },
              { address := Address.p2tr internalPubkey (Taptree.leaf [4]), value := 49500 }] } ∧
    (sampleTxTwoOuts.outs.get? 1).map TxOut.value = some 200000 ∧
    (50000 : ℚ) ≠ (200000 : ℚ) * (1 / 2) ∧
    slashTimelockUnbondedTransaction [3] [1] [2] [4] sampleTx100k 42 (1/2 : ℚ) 500 0 =
      .ok { inputSourceTx := sampleTx100k, inputIndex := 0, inputWitnessValue := 100000,
            inputWitnessScript := [1], inputLeafScript := [3],
            inputScriptTree := .node (.leaf [3]) (.node (.leaf [2]) (.leaf [1])),
            outputs := [
              { address := Address.external 42, value := 50000 },
              { address := Address.p2tr internalPubkey (Taptree.leaf [4]), value := 49500 }] } := by
  refine ⟨?_, by norm_num, by norm_num, ?_, by decide, by norm_num, ?_⟩ <;>
    norm_num [slashTimelockUnbondedTransaction, slashingTransaction,
      sampleTx100001, sampleTxTwoOuts, sampleTx100k, SATOSHI_MAX]

/-- Claim C2, evaluation at the failing input (code bug): the constraints the
claim lists are not checked anywhere — for parameters where the staker key
occurs among the finality-provider and covenant keys, the first
finality-provider key occurs among the covenant keys, the covenant threshold is
0 (< 1), the unbonding timelock is 70000 (> 65535), and the magic bytes are 3
bytes long, `validate()` returns `true` and `buildScripts()` returns a complete
script set instead of failing. -/
theorem c2_buildScripts_missing_checks_eval :
    c2FailingData.validate = true ∧
    (c2FailingData.buildScripts).isOk = true ∧
    c2FailingData.stakerKey ∈ c2FailingData.finalityProviderKeys ∧
    c2FailingData.stakerKey ∈ c2FailingData.covenantKeys ∧
    c2FailingData.finalityProviderKeys.headD [] ∈ c2FailingData.covenantKeys ∧
    c2FailingData.covenantThreshold < 1 ∧
    65535 < c2FailingData.unbondingTimeLock ∧
    c2FailingData.magicBytes.length ≠ 4 := by
  decide

/-- Claim C5, evaluation at the failing input (code bug): the code checks only
`slashingRate <= 0` (together with the fee), so a rate of `1` or `3/2` passes the
rate guard and construction instead fails later with the Not-Enough-Funds
failure (`userValue = v*(1-rate) - fee ≤ 0`), not the Invalid-Rate failure the
claim (and the repository's own test suite) requires for every rate `≥ 1`. -/
theorem c5_no_upper_rate_check_eval :
    slashTimelockUnbondedTransaction [3] [1] [2] [4] sampleTx100k 42 1 500 0 =
      .error .notEnoughFundsToSlash ∧
    slashTimelockUnbondedTransaction [3] [1] [2] [4] sampleTx100k 42 (3/2 : ℚ) 500 0 =
      .error .notEnoughFundsToSlash ∧
    slashEarlyUnbondedTransaction [3] [4] sampleTx100k 42 1 500 0 =
      .error .notEnoughFundsToSlash ∧
    SlashErr.notEnoughFundsToSlash ≠ SlashErr.rateOrFeeNotPositive := by
  refine ⟨?_, ?_, ?_, by decide⟩ <;>
    norm_num [slashTimelockUnbondedTransaction, slashEarlyUnbondedTransaction,
      slashingTransaction, sampleTx100k]

/-- Claim C4 counterexample: the claim says both the input reference and the
spent value come from `stakingTx.outs[outputIndex]` and the single output is
valued `inputValue - fee`; with `outs = [100000, 200000]`, `outputIndex = 1` and
`fee = 1000` the code records witness value `100000` (from `outs[0]`) and output
value `99000`, not `200000` and `199000`. -/
theorem c4_counterexample_outs0_not_outputIndex :
    unbondingTransaction [2] [4] [1] [3] sampleTxTwoOuts 1000 1 = .ok
      { inputSourceTx := sampleTxTwoOuts, inputIndex := 1, inputWitnessValue := 100000,
        inputWitnessScript := [5], inputLeafScript := [2],
        inputScriptTree := .node (.leaf [3]) (.node (.leaf [2]) (.leaf [1])),
        outputs := [(Address.p2tr internalPubkey (.node (.leaf [3]) (.leaf [4])), 99000)] } ∧
    (sampleTxTwoOuts.outs.get? 1).map TxOut.value = some 200000 ∧
    (99000 : Int) ≠ 200000 - 1000 ∧ (100000 : Int) ≠ 200000 := by
  decide

/-- Claim C4, amended: for fee > 0 and outputIndex ≥ 0, `unbondingTransaction`
produces a transaction whose input references `stakingTx.outs[outputIndex]` by
index but whose recorded spent value is that of `stakingTx.outs[0]`, and exactly
one output, a taproot output under the tree `{slashing, unbondingTimelock}`,
valued at exactly `stakingTx.outs[0].value - fee` (provided that value passes the
satoshi range check of `Psbt.addOutput`). -/
theorem c4_unbonding_single_output_from_outs0
    (us uts ts ss : List Nat) (stakingTx : BTCTx) (fee idx : Int) (out0 : TxOut)
    (hfee : 0 < fee) (hidx : 0 ≤ idx) (h0 : stakingTx.outs.head? = some out0)
    (h1 : 0 ≤ out0.value - fee) (h2 : out0.value - fee ≤ SATOSHI_MAX) :
    unbondingTransaction us uts ts ss stakingTx fee idx = .ok
      { inputSourceTx := stakingTx, inputIndex := idx,
        inputWitnessValue := out0.value, inputWitnessScript := out0.script,
        inputLeafScript := us,
        inputScriptTree := .node (.leaf ss) (.node (.leaf us) (.leaf ts)),
        outputs := [(Address.p2tr internalPubkey (.node (.leaf ss) (.leaf uts)),
          out0.value - fee)] } := by
  simp only [unbondingTransaction, h0]
  rw [if_neg (by omega), if_neg (by omega), if_neg (by omega)]

/-- Claim C4 witness: the amended theorem applied at a concrete input. -/
theorem c4_witness :
    unbondingTransaction [2] [4] [1] [3] sampleTx100k 1000 0 = .ok
      { inputSourceTx := sampleTx100k, inputIndex := 0, inputWitnessValue := 100000,
        inputWitnessScript := [1], inputLeafScript := [2],
        inputScriptTree := .node (.leaf [3]) (.node (.leaf [2]) (.leaf [1])),
        outputs := [(Address.p2tr internalPubkey (.node (.leaf [3]) (.leaf [4])), 99000)] } :=
  c4_unbonding_single_output_from_outs0 [2] [4] [1] [3] sampleTx100k 1000 0
    { value := 100000, script := [1] } (by decide) (by decide) (by decide)
    (by decide) (by decide)

/-- Claim C3 counterexample: a withdrawal against an output valued exactly at
the dust threshold (546) does **not** fail with the Output-Below-Dust failure —
the check is strict (`value < 546`), so at 546 the call succeeds (here with
`feeRate = 1`, yielding a 281-satoshi output after the 265-satoshi fee). -/
theorem c3_counterexample_exact_dust_succeeds :
    sampleDustTx.outs = [{ value := 546, script := [1] }] ∧ (546 : Int) = BTC_DUST_SAT ∧
    withdrawEarlyUnbondedTransaction (buildTimelockScript sampleKeyA 5000) [9] sampleDustTx 42 1 0 =
      .ok { version := 2, inputSourceTx := sampleDustTx, inputIndex := 0,
            inputWitnessValue := 546, inputWitnessScript := [1],
            inputLeafScript := buildTimelockScript sampleKeyA 5000,
            inputScriptTree := Taptree.node (Taptree.leaf [9])
              (Taptree.leaf (buildTimelockScript sampleKeyA 5000)),
            inputSequence := 5000, outputAddress := 42, outputValue := 281, fee := 265 } ∧
    withdrawTimelockUnbondedTransaction (buildTimelockScript sampleKeyA 5000) [9] [8] sampleDustTx 42 1 0 ≠
      .error .outputBelowDust := by
  decide

/-- Claim C3, amended: a withdrawal (either wrapper) fails with the
Output-Below-Dust failure exactly when the referenced prior output value is
**strictly below** the dust threshold 546; at a value of exactly 546 the check
passes (see the counterexample), and every successful withdrawal spends a prior
output valued at least 546. -/
theorem c3_withdrawal_dust_strict_boundary (key : List Nat) (t : Int) (ss us : List Nat) (tx : BTCTx)
    (addr : Nat) (feeRate idx : Int) (out : TxOut)
    (hk : key.length = 32) (h1 : 1 ≤ t) (h2 : t ≤ 65535) (hfr : 0 < feeRate)
    (hidx : 0 ≤ idx) (hout : tx.outs.get? idx.toNat = some out) :
    (withdrawTimelockUnbondedTransaction (buildTimelockScript key t) ss us tx addr feeRate idx =
        .error .outputBelowDust ↔ out.value < BTC_DUST_SAT) ∧
    (withdrawEarlyUnbondedTransaction (buildTimelockScript key t) ss tx addr feeRate idx =
        .error .outputBelowDust ↔ out.value < BTC_DUST_SAT) ∧
    (∀ r, withdrawTimelockUnbondedTransaction (buildTimelockScript key t) ss us tx addr feeRate idx =
        .ok r → BTC_DUST_SAT ≤ out.value) ∧
    (∀ r, withdrawEarlyUnbondedTransaction (buildTimelockScript key t) ss tx addr feeRate idx =
        .ok r → BTC_DUST_SAT ≤ out.value) := by
  have heval1 := withdrawalTransaction_eval key t
    (Taptree.node (Taptree.leaf ss)
      (Taptree.node (Taptree.leaf us) (Taptree.leaf (buildTimelockScript key t))))
    tx addr feeRate idx out hk h1 h2 hfr hidx hout
  have heval2 := withdrawalTransaction_eval key t
    (Taptree.node (Taptree.leaf ss) (Taptree.leaf (buildTimelockScript key t)))
    tx addr feeRate idx out hk h1 h2 hfr hidx hout
  unfold withdrawTimelockUnbondedTransaction withdrawEarlyUnbondedTransaction
  rw [heval1, heval2]
  refine ⟨?_, ?_, ?_, ?_⟩
  · split_ifs with hd hs <;> simp_all
  · split_ifs with hd hs <;> simp_all
  · intro r; split_ifs with hd hs <;> simp_all
  · intro r; split_ifs with hd hs <;> simp_all

/-- Claim C6: `getStakingTxInputUTXOsAndFees` is greedy largest-first: it fails
with Insufficient-Funds on an empty UTXO set; every successful selection is a
prefix of the available UTXOs sorted descending by value (a permutation of the
caller's set), taken one at a time with the fee estimate recomputed after each
addition — so every strictly shorter prefix fails the cover test and the
returned selection satisfies `sum of selected values ≥ stakingAmount + fee` with
`fee` the estimate at the selected input count; and when every prefix (hence
also the full set) fails to cover amount-plus-fee, it fails with the
Insufficient-Funds-for-fee failure. -/
theorem c6_greedy_largest_first_selection (avail : List UTXO) (A F O : Int) (hF : 0 < F) (hO : 0 ≤ O) :
    (avail = [] → getStakingTxInputUTXOsAndFees avail A F O = .error .insufficientFunds) ∧
    (∀ sel fee, getStakingTxInputUTXOsAndFees avail A F O = .ok (sel, fee) →
      A + fee ≤ inputValueSum sel ∧
      fee = getEstimatedFee F (sel.length : Int) O ∧
      List.Perm (sortUTXOsDesc avail) avail ∧
      List.Pairwise utxoValueGe (sortUTXOsDesc avail) ∧
      ∃ m, 1 ≤ m ∧ m ≤ avail.length ∧ sel = (sortUTXOsDesc avail).take m ∧
        ∀ j, 1 ≤ j → j < m →
          inputValueSum ((sortUTXOsDesc avail).take j) <
            A + getEstimatedFee F (j : Int) O) ∧
    ((avail ≠ [] ∧ ∀ k, 1 ≤ k → k ≤ avail.length →
        inputValueSum ((sortUTXOsDesc avail).take k) < A + getEstimatedFee F (k : Int) O) →
      getStakingTxInputUTXOsAndFees avail A F O = .error .insufficientFundsForFee) := by
  have hperm : List.Perm (sortUTXOsDesc avail) avail := List.perm_insertionSort _ _
  have hsorted : List.Pairwise utxoValueGe (sortUTXOsDesc avail) :=
    List.sorted_insertionSort _ _
  have hlenS : (sortUTXOsDesc avail).length = avail.length := hperm.length_eq
  refine ⟨?_, ?_, ?_⟩
  · intro h
    subst h
    rfl
  · intro sel fee hok
    by_cases hempty : avail = []
    · subst hempty
      simp [getStakingTxInputUTXOsAndFees] at hok
    · have hlen0 : avail.length ≠ 0 := by
        simpa [List.length_eq_zero] using hempty
      obtain ⟨m, hmlen, hm1, hsel, hsum, hfee, hmin, _⟩ :=
        getStakingTxGo_spec A F O (sortUTXOsDesc avail) [] none
      have hSne : sortUTXOsDesc avail ≠ [] := by
        intro h
        rw [h] at hlenS
        exact hlen0 hlenS.symm
      have hm1' : 1 ≤ m := hm1 hSne
      have hfee' : (getStakingTxGo A F O (sortUTXOsDesc avail) [] 0 none).2.2 =
          some (getEstimatedFee F (m : Int) O) := by
        have h0 : inputValueSum ([] : List UTXO) = 0 := rfl
        rw [h0] at hfee
        rw [hfee, if_neg (by simpa [List.isEmpty_iff] using hSne)]
        norm_num
      have hsel' : (getStakingTxGo A F O (sortUTXOsDesc avail) [] 0 none).1 =
          (sortUTXOsDesc avail).take m := by
        have h0 : inputValueSum ([] : List UTXO) = 0 := rfl
        rw [h0] at hsel
        simpa using hsel
      have hsum' : (getStakingTxGo A F O (sortUTXOsDesc avail) [] 0 none).2.1 =
          inputValueSum ((sortUTXOsDesc avail).take m) := by
        have h0 : inputValueSum ([] : List UTXO) = 0 := rfl
        rw [h0] at hsum
        simpa using hsum
      unfold getStakingTxInputUTXOsAndFees at hok
      rw [if_neg hlen0] at hok
      simp only [hfee', hsel', hsum'] at hok
      rw [if_neg (by have := getEstimatedFee_pos F (m : Int) O hF hO (by exact_mod_cast hm1'); omega)] at hok
      by_cases hcover : inputValueSum ((sortUTXOsDesc avail).take m) <
          A + getEstimatedFee F (m : Int) O
      · rw [if_pos hcover] at hok
        exact absurd hok (by simp)
      · rw [if_neg hcover] at hok
        simp only [Except.ok.injEq, Prod.mk.injEq] at hok
        obtain ⟨hsel2, hfee2⟩ := hok
        subst hsel2
        subst hfee2
        have hlentake : ((sortUTXOsDesc avail).take m).length = m := by
          rw [List.length_take]
          omega
        refine ⟨by omega, by rw [hlentake], hperm, hsorted, ⟨m, hm1', by omega, rfl, ?_⟩⟩
        intro j hj1 hj2
        have := hmin j hj1 hj2
        simpa using this
  · rintro ⟨hempty, hall⟩
    have hlen0 : avail.length ≠ 0 := by
      simpa [List.length_eq_zero] using hempty
    obtain ⟨m, hmlen, hm1, hsel, hsum, hfee, hmin, hstop⟩ :=
      getStakingTxGo_spec A F O (sortUTXOsDesc avail) [] none
    have hSne : sortUTXOsDesc avail ≠ [] := by
      intro h
      rw [h] at hlenS
      exact hlen0 hlenS.symm
    have hm1' : 1 ≤ m := hm1 hSne
    have h0 : inputValueSum ([] : List UTXO) = 0 := rfl
    rw [h0] at hsel hsum hfee
    -- the loop cannot have stopped early: every prefix fails the cover test
    have hnostop : ¬ (m < (sortUTXOsDesc avail).length) := by
      intro hlt
      have := hstop hlt
      have hbad := hall m (by exact_mod_cast hm1') (by omega)
      simp only [List.nil_append] at this
      simp only [List.length_nil, Nat.cast_zero, zero_add] at this
      omega
    have hmeq : m = avail.length := by omega
    have hfee' : (getStakingTxGo A F O (sortUTXOsDesc avail) [] 0 none).2.2 =
        some (getEstimatedFee F (m : Int) O) := by
      rw [hfee, if_neg (by simpa [List.isEmpty_iff] using hSne)]
      norm_num
    have hsum' : (getStakingTxGo A F O (sortUTXOsDesc avail) [] 0 none).2.1 =
        inputValueSum ((sortUTXOsDesc avail).take m) := by
      rw [hsum]
      simp
    unfold getStakingTxInputUTXOsAndFees
    rw [if_neg hlen0]
    simp only [hfee', hsum']
    rw [if_neg (by have := getEstimatedFee_pos F (m : Int) O hF hO (by exact_mod_cast hm1'); omega)]
    rw [if_pos (hall m (by exact_mod_cast hm1') (by omega))]

/-- Claim C7: for every timelock `t ∈ [1, 65535]`, a withdrawal from an output
whose timelock script was built with `buildTimelockScript t` decompiles that
script and finds at position 2 the small-integer opcode encoding (`OP_1..OP_16`,
decoded through the `% 16` wrap) when `t ≤ 16` and the minimal-push buffer
encoding (decoded with `script.number.decode`) when `t > 16`, recovering exactly
`t`; the built transaction (either wrapper) sets the input sequence to exactly
`t` and the transaction version to 2. -/
theorem c7_withdrawal_timelock_sequence_version (key : List Nat) (t : Int) (ss us : List Nat) (tx : BTCTx)
    (addr : Nat) (feeRate idx : Int) (out : TxOut)
    (hk : key.length = 32) (h1 : 1 ≤ t) (h2 : t ≤ 65535) (hfr : 0 < feeRate)
    (hidx : 0 ≤ idx) (hout : tx.outs.get? idx.toNat = some out)
    (hdust : BTC_DUST_SAT ≤ out.value)
    (hs1 : 0 ≤ out.value - getEstimatedFee feeRate 1 1)
    (hs2 : out.value - getEstimatedFee feeRate 1 1 ≤ SATOSHI_MAX) :
    (decompile (buildTimelockScript key t) =
      some [Chunk.buf key, Chunk.op OP_CHECKSIGVERIFY, timelockChunk t,
        Chunk.op OP_CHECKSEQUENCEVERIFY] ∧
     timePositionValue [Chunk.buf key, Chunk.op OP_CHECKSIGVERIFY, timelockChunk t,
        Chunk.op OP_CHECKSEQUENCEVERIFY] = .ok t) ∧
    withdrawTimelockUnbondedTransaction (buildTimelockScript key t) ss us tx addr feeRate idx =
      .ok (⟨2, tx, idx, out.value, out.script, buildTimelockScript key t,
        Taptree.node (Taptree.leaf ss)
          (Taptree.node (Taptree.leaf us) (Taptree.leaf (buildTimelockScript key t))),
        t, addr, out.value - getEstimatedFee feeRate 1 1,
        getEstimatedFee feeRate 1 1⟩ : WithdrawResult) ∧
    withdrawEarlyUnbondedTransaction (buildTimelockScript key t) ss tx addr feeRate idx =
      .ok (⟨2, tx, idx, out.value, out.script, buildTimelockScript key t,
        Taptree.node (Taptree.leaf ss) (Taptree.leaf (buildTimelockScript key t)),
        t, addr, out.value - getEstimatedFee feeRate 1 1,
        getEstimatedFee feeRate 1 1⟩ : WithdrawResult) := by
  have heval1 := withdrawalTransaction_eval key t
    (Taptree.node (Taptree.leaf ss)
      (Taptree.node (Taptree.leaf us) (Taptree.leaf (buildTimelockScript key t))))
    tx addr feeRate idx out hk h1 h2 hfr hidx hout
  have heval2 := withdrawalTransaction_eval key t
    (Taptree.node (Taptree.leaf ss) (Taptree.leaf (buildTimelockScript key t)))
    tx addr feeRate idx out hk h1 h2 hfr hidx hout
  refine ⟨⟨decompile_buildTimelockScript key t hk h1 h2,
    timePositionValue_timelockChunk key t h1 h2⟩, ?_, ?_⟩
  · unfold withdrawTimelockUnbondedTransaction
    rw [heval1, if_neg (by omega), if_neg (by omega)]
  · unfold withdrawEarlyUnbondedTransaction
    rw [heval2, if_neg (by omega), if_neg (by omega)]

/-- Claim C10 (implicit): `withdrawalTransaction` guards `outputIndex` only by
the `outputIndex ≥ 0` check and never checks `outputIndex < tx.outs.length`; for
every in-bounds index the `tx.outs[outputIndex]` accesses are in bounds (the
undefined-access runtime error is impossible), while for every out-of-bounds
index the access yields `undefined` and the call ends in the non-structured
runtime type error — which is none of the taxonomy's structured failures — and
no PsbtTransactionResult is returned. -/
theorem c10_withdrawal_outputIndex_unguarded (key : List Nat) (t : Int) (tree : Taptree) (tx : BTCTx)
    (addr : Nat) (feeRate idx : Int)
    (hk : key.length = 32) (h1 : 1 ≤ t) (h2 : t ≤ 65535) (hfr : 0 < feeRate)
    (hidx : 0 ≤ idx) :
    (idx.toNat < tx.outs.length →
      withdrawalTransaction (buildTimelockScript key t) tree tx addr feeRate idx ≠
        .error .jsUndefinedAccess) ∧
    ((tx.outs.length : Int) ≤ idx →
      withdrawalTransaction (buildTimelockScript key t) tree tx addr feeRate idx =
        .error .jsUndefinedAccess ∧
      ∀ r, withdrawalTransaction (buildTimelockScript key t) tree tx addr feeRate idx ≠
        .ok r) ∧
    (WithdrawErr.jsUndefinedAccess ≠ WithdrawErr.feeRateNotPositive ∧
     WithdrawErr.jsUndefinedAccess ≠ WithdrawErr.negativeOutputIndex ∧
     WithdrawErr.jsUndefinedAccess ≠ WithdrawErr.timelockScriptInvalid ∧
     WithdrawErr.jsUndefinedAccess ≠ WithdrawErr.outputBelowDust) := by
  refine ⟨?_, ?_, by decide, by decide, by decide, by decide⟩
  · intro hin
    cases hget : tx.outs.get? idx.toNat with
    | none =>
      rw [List.get?_eq_none] at hget
      omega
    | some out =>
      rw [withdrawalTransaction_eval key t tree tx addr feeRate idx out hk h1 h2 hfr hidx hget]
      split_ifs <;> simp
  · intro hoob
    have hget : tx.outs.get? idx.toNat = none := by
      rw [List.get?_eq_none]
      omega
    have heval : withdrawalTransaction (buildTimelockScript key t) tree tx addr feeRate idx =
        .error .jsUndefinedAccess := by
      unfold withdrawalTransaction
      rw [if_neg (by omega), if_neg (by omega),
        decompile_buildTimelockScript key t hk h1 h2]
      simp only [timePositionValue_timelockChunk key t h1 h2, hget]
    exact ⟨heval, fun r => by rw [heval]; simp⟩

/-- Claim C3 witness: the amended theorem applied at a concrete input. -/
theorem c3_witness :
    withdrawTimelockUnbondedTransaction (buildTimelockScript sampleKeyA 5000) [9] [8]
        sampleDustTx 42 1 0 = .error .outputBelowDust ↔ (546 : Int) < BTC_DUST_SAT :=
  (c3_withdrawal_dust_strict_boundary sampleKeyA 5000 [9] [8] sampleDustTx 42 1 0
    { value := 546, script := [1] } (by decide) (by decide) (by decide) (by decide)
    (by decide) (by decide)).1

/-- Claim C6 witness: the theorem applied at a concrete input (two UTXOs of
5000 and 3000 satoshis, amount 1000, fee rate 1, two outputs: the selection is
the single 5000-satoshi UTXO at fee 299). -/
theorem c6_witness :
    1000 + 299 ≤ inputValueSum [sampleUTXO1] ∧
    (299 : Int) = getEstimatedFee 1 (([sampleUTXO1] : List UTXO).length : Int) 2 :=
  ⟨((c6_greedy_largest_first_selection [sampleUTXO2, sampleUTXO1] 1000 1 2 (by decide)
      (by decide)).2.1 [sampleUTXO1] 299 (by decide)).1,
   ((c6_greedy_largest_first_selection [sampleUTXO2, sampleUTXO1] 1000 1 2 (by decide)
      (by decide)).2.1 [sampleUTXO1] 299 (by decide)).2.1⟩

/-- Claim C7 witness: the theorem applied at concrete inputs covering both
encodings (t = 7, the opcode path, and t = 5000, the buffer path). -/
theorem c7_witness :
    withdrawTimelockUnbondedTransaction (buildTimelockScript sampleKeyA 7) [9] [8]
        sampleTx100k 42 1 0 =
      .ok (⟨2, sampleTx100k, 0, 100000, [1], buildTimelockScript sampleKeyA 7,
        Taptree.node (Taptree.leaf [9]) (Taptree.node (Taptree.leaf [8])
          (Taptree.leaf (buildTimelockScript sampleKeyA 7))), 7, 42, 99735,
        265⟩ : WithdrawResult) ∧
    withdrawEarlyUnbondedTransaction (buildTimelockScript sampleKeyA 5000) [9]
        sampleTx100k 42 1 0 =
      .ok (⟨2, sampleTx100k, 0, 100000, [1], buildTimelockScript sampleKeyA 5000,
        Taptree.node (Taptree.leaf [9]) (Taptree.leaf (buildTimelockScript sampleKeyA 5000)),
        5000, 42, 99735, 265⟩ : WithdrawResult) :=
  ⟨(c7_withdrawal_timelock_sequence_version sampleKeyA 7 [9] [8] sampleTx100k 42 1 0
      { value := 100000, script := [1] } (by decide) (by decide) (by decide) (by decide)
      (by decide) (by decide) (by decide) (by decide) (by decide)).2.1,
   (c7_withdrawal_timelock_sequence_version sampleKeyA 5000 [9] [8] sampleTx100k 42 1 0
      { value := 100000, script := [1] } (by decide) (by decide) (by decide) (by decide)
      (by decide) (by decide) (by decide) (by decide) (by decide)).2.2⟩

/-- Claim C10 witness: the theorem applied at a concrete out-of-bounds index
(index 2 against a single-output transaction). -/
theorem c10_witness :
    withdrawalTransaction (buildTimelockScript sampleKeyA 5000) (Taptree.leaf [9])
        sampleTx100k 42 1 2 = .error .jsUndefinedAccess :=
  ((c10_withdrawal_outputIndex_unguarded sampleKeyA 5000 (Taptree.leaf [9]) sampleTx100k
      42 1 2 (by decide) (by decide) (by decide) (by decide) (by decide)).2.1
    (by decide)).1
